import Mathlib

/-!
Verification of the response-normalization pipeline of `batch_address_screen.py`
(`process_responses` and its helper `flatten_dict`), shallowly embedded in Lean.

JSON documents (as produced by `json.loads`) are modelled by `JVal`; Python
dictionaries are association lists with insertion-order semantics
(`dictUpd` / `dictOf` mirror `d[k] = v` and `dict(items)`); the pandas
DataFrame is modelled by `DF` (a column list plus one association list per
row, with absent cells reading as `JVal.null`, pandas' NaN).  Fallible Python
operations (`d[k]` raising KeyError, iteration raising TypeError, column drops
raising KeyError) return `Except String`.
-/

/-- A parsed JSON value.  The input documents of `process_responses` use
null, numbers, strings, arrays and objects (the schema in the repository's
responses carries no booleans). -/
inductive JVal where
  | null
  | num (q : Rat)
  | str (s : String)
  | arr (elems : List JVal)
  | obj (fields : List (String × JVal))

/-- A Python dict with string keys, in insertion order. -/
abbrev Obj := List (String × JVal)

/-- `d[k] = v` on a Python dict: an existing key keeps its position and gets
the new value; a new key is appended at the end. -/
def dictUpd (l : Obj) (k : String) (v : JVal) : Obj :=
  if (l.map Prod.fst).contains k then
    l.map (fun p => if p.1 = k then (k, v) else p)
  else l ++ [(k, v)]

/-- `dict(items)`: build a dict from a pair list, later pairs overwriting
earlier ones for equal keys (first occurrence keeps its position). -/
def dictOf (l : Obj) : Obj :=
  l.foldl (fun acc p => dictUpd acc p.1 p.2) []

/-- `d.get(k)`-style lookup on an association list with string keys. -/
def assocLook (l : Obj) (k : String) : Option JVal :=
  (l.find? (fun p => p.1 = k)).map Prod.snd

/-- Equality of Python dict keys.  Only hashable scalars (None, numbers,
strings) can be dict keys; lists and dicts are unhashable, so a key of those
shapes never compares equal to anything here. -/
def pyKeyEq : JVal → JVal → Bool
  | JVal.null, JVal.null => true
  | JVal.num a, JVal.num b => a = b
  | JVal.str a, JVal.str b => a = b
  | _, _ => false

/-- `d[k] = v` on a Python dict keyed by JSON scalars. -/
def kdictUpd {β : Type} (l : List (JVal × β)) (k : JVal) (v : β) : List (JVal × β) :=
  if l.any (fun p => pyKeyEq p.1 k) then
    l.map (fun p => if pyKeyEq p.1 k then (k, v) else p)
  else l ++ [(k, v)]

/-- Lookup on a Python dict keyed by JSON scalars. -/
def kdictLook {β : Type} (l : List (JVal × β)) (k : JVal) : Option β :=
  (l.find? (fun p => pyKeyEq p.1 k)).map Prod.snd

/-- Python truthiness of a JSON value (`if not response[...]`). -/
def truthy : JVal → Bool
  | JVal.null => false
  | JVal.num q => q ≠ 0
  | JVal.str s => s ≠ ""
  | JVal.arr l => !l.isEmpty
  | JVal.obj l => !l.isEmpty

/-- `for x in v`: arrays yield their elements, strings their characters,
dicts their keys; numbers and None raise TypeError. -/
def pyIter : JVal → Except String (List JVal)
  | JVal.arr l => Except.ok l
  | JVal.str s => Except.ok (s.toList.map (fun c => JVal.str (String.mk [c])))
  | JVal.obj l => Except.ok (l.map (fun p => JVal.str p.1))
  | _ => Except.error "TypeError: object is not iterable"

/-- `d[k]` on a dict: KeyError when the key is absent. -/
def getKey (d : Obj) (k : String) : Except String JVal :=
  match assocLook d k with
  | some v => Except.ok v
  | none => Except.error ("KeyError: " ++ k)

/-- `v[k]` on an arbitrary value: subscripting a non-dict raises TypeError. -/
def getItem (v : JVal) (k : String) : Except String JVal :=
  match v with
  | JVal.obj d => getKey d k
  | _ => Except.error "TypeError: value is not subscriptable"

/-- The item-collection loop of `flatten_dict` (lines 163-171): nested dicts
are flattened recursively under `parent_key + "_" + k`, other values are kept
as leaves. -/
def flattenGo (l : Obj) (parent : String) : Obj :=
  match l with
  | [] => []
  | (k, v) :: rest =>
    (match v with
     | JVal.obj d2 => dictOf (flattenGo d2 (if parent = "" then k else parent ++ "_" ++ k))
     | w => [((if parent = "" then k else parent ++ "_" ++ k), w)]) ++ flattenGo rest parent

/-- `flatten_dict(d, parent_key, sep="_")`: collect the flattened items and
return `dict(items)`. -/
def flatten_dict (d : Obj) (parent : String) : Obj :=
  dictOf (flattenGo d parent)

/-- Structural `mapM` over `Except String`. -/
def exceptMapM {α β : Type} (f : α → Except String β) : List α → Except String (List β)
  | [] => Except.ok []
  | x :: xs => (f x).bind (fun y => (exceptMapM f xs).bind (fun ys => Except.ok (y :: ys)))

/-- Structural `foldlM` over `Except String`. -/
def exceptFoldlM {α σ : Type} (f : σ → α → Except String σ) : σ → List α → Except String σ
  | s, [] => Except.ok s
  | s, x :: xs => (f s x).bind (fun s2 => exceptFoldlM f s2 xs)

/-- A pandas DataFrame: an ordered column list, and one record per row.  A
cell is the row's value at the column's key, or NaN (here `JVal.null`) when
the record has no such key. -/
structure DF where
  cols : List String
  rows : List Obj

/-- Union of column names with the keys of one record, keeping first
appearance order. -/
def unionKeys (acc : List String) (r : Obj) : List String :=
  r.foldl (fun cs p => if cs.contains p.1 then cs else cs ++ [p.1]) acc

/-- `pd.DataFrame(records)`: columns are the union of the records' keys in
first-appearance order. -/
def DF.ofRecords (rs : List Obj) : DF :=
  ⟨rs.foldl unionKeys [], rs⟩

/-- `df[name] = df.apply(f, axis=1)`: compute one value per row and store it
under `name` (a new column is appended at the end of the column list). -/
def DF.applyCol (df : DF) (name : String) (f : Obj → Except String JVal) :
    Except String DF :=
  (exceptMapM (fun r => (f r).bind (fun v => Except.ok (dictUpd r name v))) df.rows).bind
    (fun newRows =>
      Except.ok ⟨if df.cols.contains name then df.cols else df.cols ++ [name], newRows⟩)

/-- `df.drop(name, axis=1)`: KeyError when the column is absent. -/
def DF.dropCol (df : DF) (name : String) : Except String DF :=
  if df.cols.contains name then
    Except.ok ⟨df.cols.erase name, df.rows.map (fun r => r.filter (fun p => p.1 ≠ name))⟩
  else Except.error ("KeyError: " ++ name)

/-- Lines 255-257: `for col in column_order: if col not in df.columns:
df[col] = None` (a created column reads as null in every row). -/
def DF.ensureCols (df : DF) (names : List String) : DF :=
  names.foldl (fun d n => if d.cols.contains n then d else ⟨d.cols ++ [n], d.rows⟩) df

/-- `df[column_order]`: project onto the given columns, in that order. -/
def DF.select (df : DF) (names : List String) : Except String DF :=
  if names.all (fun n => df.cols.contains n) then Except.ok ⟨names, df.rows⟩
  else Except.error "KeyError: columns not found"

/-- Lines 176-182 for one response: replace a falsy `addressIdentifications`
by `[{}]`, then emit one flattened shallow copy per identification entry. -/
def flattenResponse (response : Obj) : Except String (List Obj) :=
  (getKey response "addressIdentifications").bind (fun ids =>
    (pyIter (if truthy ids then ids else JVal.arr [JVal.obj []])).bind (fun elems =>
      Except.ok (elems.map (fun a =>
        flatten_dict (dictUpd response "addressIdentifications" a) ""))))

/-- Lines 174-182: the flattened record list for the whole batch. -/
def flattenStage (responses : List Obj) : Except String (List Obj) :=
  (exceptMapM flattenResponse responses).bind (fun ls => Except.ok ls.flatten)

/-- One step of the dict comprehension of lines 191-192:
`exposure["category"]: exposure["value"]`. -/
def expMStep (m : List (JVal × JVal)) (e : JVal) : Except String (List (JVal × JVal)) :=
  (getItem e "category").bind (fun c =>
    (getItem e "value").bind (fun v =>
      Except.ok (kdictUpd m c v)))

/-- Lines 190-193: `{exposure["category"]: exposure["value"] for exposure in
response["exposures"]}`. -/
def exposureMap (response : Obj) : Except String (List (JVal × JVal)) :=
  (getKey response "exposures").bind (fun exps =>
    (pyIter exps).bind (fun elems =>
      exceptFoldlM expMStep [] elems))

/-- One iteration of the loop of lines 189-193:
`exposure_values[response["address"]] = {...}`. -/
def evStep (acc : List (JVal × List (JVal × JVal))) (response : Obj) :
    Except String (List (JVal × List (JVal × JVal))) :=
  (exposureMap response).bind (fun m =>
    (getKey response "address").bind (fun addr =>
      Except.ok (kdictUpd acc addr m)))

/-- Lines 188-193: the `exposure_values` dict, keyed by each response's
`address`. -/
def exposureValues (responses : List Obj) : Except String (List (JVal × List (JVal × JVal))) :=
  exceptFoldlM evStep [] responses

/-- Lines 196-229: the fixed 32-entry exposure category vocabulary, in output
column order. -/
def all_categories : List String :=
  ["atm", "child abuse material", "darknet market", "decentralized exchange contract",
   "exchange", "fee", "fraud shop", "gambling", "high risk exchange",
   "high risk jurisdiction", "hosted wallet", "ico", "illicit actor-org",
   "infrastructure as a service", "lending contract", "merchant services", "mining",
   "mining pool", "mixing", "none", "online pharmacy", "other", "p2p exchange",
   "protocol privacy", "ransomware", "sanctions", "scam", "smart contract",
   "stolen funds", "terrorist financing", "token smart contract", "unnamed service"]

/-- Lines 244-252: the contracted output column order. -/
def column_order : List String :=
  ["address", "risk", "cluster_name", "cluster_category", "addressIdentifications_name",
   "addressIdentifications_category", "addressIdentifications_description"] ++ all_categories

/-- Lines 234-236: the per-row value of one category column —
`exposure_values[row["address"]][category] if category in
exposure_values[row["address"]] else 0`. -/
def catValue (ev : List (JVal × List (JVal × JVal))) (category : String)
    (cols : List String) (row : Obj) : Except String JVal :=
  (if cols.contains "address" then Except.ok ((assocLook row "address").getD JVal.null)
   else Except.error "KeyError: address").bind (fun addr =>
    match kdictLook ev addr with
    | none => Except.error "KeyError: address not in exposure_values"
    | some m => Except.ok ((kdictLook m (JVal.str category)).getD (JVal.num 0)))

/-- Lines 232-238: populate the 32 category columns. -/
def pivotStage (ev : List (JVal × List (JVal × JVal))) (df : DF) : Except String DF :=
  exceptFoldlM (fun d category => d.applyCol category (catValue ev category d.cols))
    df all_categories

/-- `process_responses` (lines 137-261): flatten, build `exposure_values`,
populate the category columns, drop `exposures`, ensure and reorder the
contracted columns. -/
def process_responses (responses : List Obj) : Except String DF :=
  (flattenStage responses).bind (fun flat =>
    (exposureValues responses).bind (fun ev =>
      (pivotStage ev (DF.ofRecords flat)).bind (fun df1 =>
        (df1.dropCol "exposures").bind (fun df2 =>
          (df2.ensureCols column_order).select column_order))))

/-- The caller-visible state of one input document after the flatten loop:
line 177 (`response["addressIdentifications"] = [{}]`) writes through to the
caller's document when the list is falsy; nothing else in `process_responses`
writes to the input. -/
def pyMutateIds (response : Obj) : Obj :=
  match assocLook response "addressIdentifications" with
  | some v =>
    if truthy v then response
    else dictUpd response "addressIdentifications" (JVal.arr [JVal.obj []])
  | none => response

/-- The caller's response list after `process_responses` completes its
flatten loop. -/
def inputAfterProcess (responses : List Obj) : List Obj :=
  responses.map pyMutateIds

/-! ## Well-formed documents (the input schema of spec section 6) -/

/-- `risk` is an opaque string or numeric label. -/
def wfRisk : JVal → Bool
  | JVal.str _ => true
  | JVal.num _ => true
  | _ => false

/-- `cluster` is null or `{name: string, category: string}`. -/
def wfCluster : JVal → Bool
  | JVal.null => true
  | JVal.obj [("name", JVal.str _n), ("category", JVal.str _c)] => true
  | _ => false

/-- An exposures entry is `{category: string, value: number}`. -/
def wfExposure : JVal → Bool
  | JVal.obj [("category", JVal.str _c), ("value", JVal.num _q)] => true
  | _ => false

/-- An identification entry is `{name: string, category: string,
description: string}`. -/
def wfIdent : JVal → Bool
  | JVal.obj [("name", JVal.str _n), ("category", JVal.str _c), ("description", JVal.str _d)] => true
  | _ => false

/-- A well-formed RiskResponse document, exactly the schema of spec
section 6. -/
def wfDoc : Obj → Bool
  | [("address", JVal.str _a), ("risk", r), ("cluster", c),
     ("exposures", JVal.arr es), ("addressIdentifications", JVal.arr ids)] =>
    wfRisk r && wfCluster c && es.all wfExposure && ids.all wfIdent
  | _ => false

/-- The document's address as a string (meaningful on well-formed
documents). -/
def addrStr (d : Obj) : String :=
  match assocLook d "address" with
  | some (JVal.str a) => a
  | _ => ""

/-- The document's address value. -/
def addrVal (d : Obj) : JVal :=
  (assocLook d "address").getD JVal.null

/-- A well-formed batch: every document well-formed, addresses pairwise
distinct (spec section 3: `address` is a unique key within a batch). -/
def wfBatch (rs : List Obj) : Prop :=
  (∀ d ∈ rs, wfDoc d = true) ∧ (rs.map addrStr).Nodup

instance : DecidablePred wfBatch := fun rs => by
  unfold wfBatch; infer_instance

/-! ## Observables of the expected output -/

/-- The document's `addressIdentifications` list. -/
def idsList (d : Obj) : List JVal :=
  match assocLook d "addressIdentifications" with
  | some (JVal.arr l) => l
  | _ => []

/-- The identification entries one flat row is produced for: the placeholder
`{}` when the list is empty (line 176-177), else the list itself. -/
def effIds (d : Obj) : List JVal :=
  if (idsList d).isEmpty then [JVal.obj []] else idsList d

/-- The document's `exposures` list. -/
def esList (d : Obj) : List JVal :=
  match assocLook d "exposures" with
  | some (JVal.arr l) => l
  | _ => []

/-- The `category` string of one exposures entry, when it has one. -/
def expCatStr (e : JVal) : Option String :=
  match e with
  | JVal.obj o =>
    match assocLook o "category" with
    | some (JVal.str s) => some s
    | _ => none
  | _ => none

/-- The `value` of one exposures entry. -/
def expValOf (e : JVal) : JVal :=
  match e with
  | JVal.obj o => (assocLook o "value").getD JVal.null
  | _ => JVal.null

/-- One step of the dict comprehension of lines 191-192. -/
def expStep (m : List (JVal × JVal)) (e : JVal) : List (JVal × JVal) :=
  match e with
  | JVal.obj o =>
    match assocLook o "category", assocLook o "value" with
    | some c, some v => kdictUpd m c v
    | _, _ => m
  | _ => m

/-- The `{category: value}` dict of one document's exposures (the pure value
`exposureMap` computes on well-formed documents). -/
def expFold (es : List JVal) : List (JVal × JVal) :=
  es.foldl expStep []

/-- The value of category column `c` for a document: its exposures value if
recorded, else exactly 0. -/
def catVal (d : Obj) (c : String) : JVal :=
  (kdictLook (expFold (esList d)) (JVal.str c)).getD (JVal.num 0)

/-- One final output row: the flattened record minus the dropped `exposures`
column, followed by the 32 category columns. -/
def finalRow (d : Obj) (v : JVal) : Obj :=
  (flatten_dict (dictUpd d "addressIdentifications" v) "").filter
    (fun p => p.1 ≠ "exposures") ++
  all_categories.map (fun c => (c, catVal d c))

/-- The expected row list of `process_responses` on a well-formed batch. -/
def expectedRows (rs : List Obj) : List Obj :=
  rs.flatMap (fun d => (effIds d).map (finalRow d))

/-- The flattened contribution of the `cluster` field of a well-formed
document. -/
def clusterPart : JVal → Obj
  | JVal.obj [("name", n), ("category", c)] => [("cluster_name", n), ("cluster_category", c)]
  | v => [("cluster", v)]

/-- The flattened contribution of one identification entry of a well-formed
document (the empty placeholder contributes no columns at all). -/
def identPart : JVal → Obj
  | JVal.obj [("name", n), ("category", c), ("description", ds)] =>
    [("addressIdentifications_name", n), ("addressIdentifications_category", c),
     ("addressIdentifications_description", ds)]
  | JVal.obj [] => []
  | v => [("addressIdentifications", v)]

/-! ## Shape inversion for the well-formedness predicates -/

theorem wfRisk_cases {r : JVal} (h : wfRisk r = true) :
    (∃ s, r = JVal.str s) ∨ (∃ q, r = JVal.num q) := by
  cases r <;> simp [wfRisk] at h <;> simp

theorem wfCluster_cases {c : JVal} (h : wfCluster c = true) :
    c = JVal.null ∨
      ∃ n cat, c = JVal.obj [("name", JVal.str n), ("category", JVal.str cat)] := by
  unfold wfCluster at h
  split at h
  · left; rfl
  · rename_i n cat; right; exact ⟨n, cat, rfl⟩
  · exact absurd h (by simp)

theorem wfExposure_cases {e : JVal} (h : wfExposure e = true) :
    ∃ c q, e = JVal.obj [("category", JVal.str c), ("value", JVal.num q)] := by
  unfold wfExposure at h
  split at h
  · rename_i c q; exact ⟨c, q, rfl⟩
  · exact absurd h (by simp)

theorem wfIdent_cases {v : JVal} (h : wfIdent v = true) :
    ∃ n c ds, v = JVal.obj [("name", JVal.str n), ("category", JVal.str c),
      ("description", JVal.str ds)] := by
  unfold wfIdent at h
  split at h
  · rename_i n c ds; exact ⟨n, c, ds, rfl⟩
  · exact absurd h (by simp)

theorem wfDoc_cases {d : Obj} (h : wfDoc d = true) :
    ∃ a r c es ids,
      d = [("address", JVal.str a), ("risk", r), ("cluster", c),
           ("exposures", JVal.arr es), ("addressIdentifications", JVal.arr ids)] ∧
      wfRisk r = true ∧ wfCluster c = true ∧
      (∀ e ∈ es, wfExposure e = true) ∧ (∀ v ∈ ids, wfIdent v = true) := by
  unfold wfDoc at h
  split at h
  · rename_i a r c es ids
    simp only [Bool.and_eq_true, List.all_eq_true] at h
    exact ⟨a, r, c, es, ids, rfl, h.1.1.1, h.1.1.2, h.1.2, h.2⟩
  · exact absurd h (by simp)

/-! ## Closed form of one flattened row -/

/-- On a well-formed document with one substituted identification entry (or
the `{}` placeholder), `flatten_dict` produces exactly the address, risk,
cluster, exposures and identification fields, in document order. -/
theorem flatRow_closed (a : String) (r c : JVal) (es ids : List JVal) (v : JVal)
    (hr : wfRisk r = true) (hc : wfCluster c = true)
    (hv : wfIdent v = true ∨ v = JVal.obj []) :
    flatten_dict (dictUpd [("address", JVal.str a), ("risk", r), ("cluster", c),
      ("exposures", JVal.arr es), ("addressIdentifications", JVal.arr ids)]
      "addressIdentifications" v) "" =
    [("address", JVal.str a), ("risk", r)] ++ clusterPart c ++
      [("exposures", JVal.arr es)] ++ identPart v := by
  rcases wfRisk_cases hr with ⟨s, rfl⟩ | ⟨q, rfl⟩ <;>
  rcases wfCluster_cases hc with rfl | ⟨n, cat, rfl⟩ <;>
  rcases hv with hv | rfl
  all_goals try rcases wfIdent_cases hv with ⟨in1, ic1, id1, rfl⟩
  all_goals
    simp [flatten_dict, flattenGo, dictOf, dictUpd, clusterPart, identPart]

/-! ## Dictionary lemmas -/

theorem pyKeyEq_str_iff {x : JVal} {s : String} :
    pyKeyEq x (JVal.str s) = true ↔ x = JVal.str s := by
  cases x <;> simp [pyKeyEq]

theorem pyKeyEq_str_left_iff {x : JVal} {s : String} :
    pyKeyEq (JVal.str s) x = true ↔ x = JVal.str s := by
  cases x <;> simp [pyKeyEq, eq_comm]

/-- Looking up a string key after a string-keyed dict write: the write wins
on its own key and is invisible on every other key. -/
theorem kdictLook_kdictUpd_str {β : Type} (l : List (JVal × β)) (s c : String) (v : β) :
    kdictLook (kdictUpd l (JVal.str s) v) (JVal.str c) =
      if s = c then some v else kdictLook l (JVal.str c) := by
  unfold kdictUpd kdictLook
  by_cases hany : l.any (fun p => pyKeyEq p.1 (JVal.str s)) = true
  · rw [if_pos hany, List.find?_map]
    by_cases hsc : s = c
    · subst hsc
      rw [if_pos rfl]
      rcases (List.any_eq_true.mp hany) with ⟨p, hp, hps⟩
      have hfind : (List.find? ((fun p => pyKeyEq p.1 (JVal.str s)) ∘
          fun p => if pyKeyEq p.1 (JVal.str s) = true then (JVal.str s, v) else p) l).isSome := by
        rw [List.find?_isSome]
        refine ⟨p, hp, ?_⟩
        simp only [Function.comp_apply, hps, if_true]
        simp [pyKeyEq]
      rcases Option.isSome_iff_exists.mp hfind with ⟨q, hq⟩
      rw [hq]
      have hq2 := List.find?_some hq
      simp only [Function.comp_apply] at hq2
      by_cases hqs : pyKeyEq q.1 (JVal.str s) = true
      · simp [hqs]
      · rw [if_neg hqs] at hq2
        exact absurd hq2 hqs
    · rw [if_neg hsc]
      have hcongr : ((fun p => pyKeyEq p.1 (JVal.str c)) ∘
          fun p => if pyKeyEq p.1 (JVal.str s) = true then (JVal.str s, v) else p) =
          fun p : JVal × β => pyKeyEq p.1 (JVal.str c) := by
        funext p
        by_cases hps : pyKeyEq p.1 (JVal.str s) = true
        · simp only [Function.comp_apply, hps, if_true]
          have hp1 : p.1 = JVal.str s := pyKeyEq_str_iff.mp hps
          simp [pyKeyEq, hp1, hsc]
        · simp only [Function.comp_apply, hps, if_false]
          simp [hps]
      rw [hcongr]
      cases hf : List.find? (fun p : JVal × β => pyKeyEq p.1 (JVal.str c)) l with
      | none => simp
      | some q =>
        have hq2 := List.find?_some hf
        have hq1 : q.1 = JVal.str c := pyKeyEq_str_iff.mp hq2
        have hqs : ¬ pyKeyEq q.1 (JVal.str s) = true := by
          simp [hq1, pyKeyEq, Ne.symm hsc]
        simp [hqs]
  · rw [if_neg hany, List.find?_append]
    by_cases hsc : s = c
    · subst hsc
      have hnone : List.find? (fun p : JVal × β => pyKeyEq p.1 (JVal.str s)) l = none := by
        rw [List.find?_eq_none]
        intro p hp
        exact fun hps => hany (List.any_eq_true.mpr ⟨p, hp, hps⟩)
      rw [if_pos rfl, hnone]
      simp [List.find?, pyKeyEq]
    · rw [if_neg hsc]
      have hlast : List.find? (fun p : JVal × β => pyKeyEq p.1 (JVal.str c)) [(JVal.str s, v)] =
          none := by
        simp [List.find?, pyKeyEq, hsc]
      cases hf : List.find? (fun p : JVal × β => pyKeyEq p.1 (JVal.str c)) l with
      | none => simp [hlast]
      | some q => simp

theorem find?_congr_mem {α : Type} (p q : α → Bool) {l : List α}
    (h : ∀ x ∈ l, p x = q x) : l.find? p = l.find? q := by
  induction l with
  | nil => rfl
  | cons x t ih =>
    have ht := ih (fun y hy => h y (List.mem_cons_of_mem _ hy))
    rw [List.find?_cons, List.find?_cons, h x (List.mem_cons_self _ _)]
    cases q x
    · simpa using ht
    · rfl

/-- Last write wins: looking up a string key after a left fold of
string-keyed dict writes finds the value of the last write to that key, and
falls back to the initial dict when no step wrote it. -/
theorem kdictLook_fold_str {α β : Type} (g : α → String) (h : α → β) (l : List α)
    (acc : List (JVal × β)) (c : String) :
    kdictLook (l.foldl (fun a x => kdictUpd a (JVal.str (g x)) (h x)) acc) (JVal.str c) =
      match l.reverse.find? (fun x => g x = c) with
      | some x => some (h x)
      | none => kdictLook acc (JVal.str c) := by
  induction l generalizing acc with
  | nil => simp
  | cons x t ih =>
    rw [List.foldl_cons, ih]
    rw [List.reverse_cons, List.find?_append]
    cases hf : t.reverse.find? (fun y => g y = c) with
    | some y => simp [Option.or]
    | none =>
      rw [kdictLook_kdictUpd_str]
      by_cases hgx : g x = c
      · simp [List.find?, hgx]
      · simp [List.find?, hgx]

/-! ## The exposures stages on well-formed input -/

theorem expStep_wf {m : List (JVal × JVal)} {e : JVal} (h : wfExposure e = true) :
    expStep m e = kdictUpd m (JVal.str ((expCatStr e).getD "")) (expValOf e) := by
  obtain ⟨c, q, rfl⟩ := wfExposure_cases h
  simp [expStep, expCatStr, expValOf, assocLook, List.find?]

/-- The looked-up value of category `c` in a document's exposure dict is
the value of the last exposures entry carrying category `c`. -/
theorem expFold_look {es : List JVal} (hwf : ∀ e ∈ es, wfExposure e = true) (c : String) :
    kdictLook (expFold es) (JVal.str c) =
      (es.reverse.find? (fun e => expCatStr e = some c)).map expValOf := by
  unfold expFold
  rw [List.foldl_ext expStep
    (fun a x => kdictUpd a (JVal.str ((expCatStr x).getD "")) (expValOf x))
    [] (fun a e he => expStep_wf (hwf e he))]
  rw [kdictLook_fold_str]
  rw [find?_congr_mem (fun e => (expCatStr e).getD "" = c)
    (fun e => expCatStr e = some c) ?hcongr]
  case hcongr =>
    intro e he
    obtain ⟨cs, q, rfl⟩ := wfExposure_cases (hwf e (List.mem_reverse.mp he))
    simp [expCatStr, assocLook, List.find?]
  cases (es.reverse.find? (fun e => expCatStr e = some c)) <;> simp [kdictLook]

theorem expMStep_fold {es : List JVal} (hwf : ∀ e ∈ es, wfExposure e = true)
    (m : List (JVal × JVal)) :
    exceptFoldlM expMStep m es = Except.ok (es.foldl expStep m) := by
  induction es generalizing m with
  | nil => rfl
  | cons e t ih =>
    obtain ⟨c, q, he⟩ := wfExposure_cases (hwf e (List.mem_cons_self _ _))
    have h1 : expMStep m e = Except.ok (expStep m e) := by
      subst he
      simp [expMStep, expStep, getItem, getKey, assocLook, List.find?, Except.bind]
    rw [List.foldl_cons]
    simp only [exceptFoldlM, h1, Except.bind]
    exact ih (fun x hx => hwf x (List.mem_cons_of_mem _ hx)) _

theorem exposureMap_wf {d : Obj} (h : wfDoc d = true) :
    exposureMap d = Except.ok (expFold (esList d)) := by
  obtain ⟨a, r, c, es, ids, rfl, h1, h2, h3, h4⟩ := wfDoc_cases h
  have hes : esList [("address", JVal.str a), ("risk", r), ("cluster", c),
      ("exposures", JVal.arr es), ("addressIdentifications", JVal.arr ids)] = es := by
    simp [esList, assocLook, List.find?]
  rw [hes]
  simp only [exposureMap, getKey, assocLook, List.find?]
  norm_num
  simp only [pyIter, Except.bind]
  exact expMStep_fold h3 []

/-- The pure value of the `exposure_values` dict on a well-formed batch. -/
def evExpected (rs : List Obj) : List (JVal × List (JVal × JVal)) :=
  rs.foldl (fun acc d => kdictUpd acc (JVal.str (addrStr d)) (expFold (esList d))) []

theorem evStep_wf {d : Obj} (h : wfDoc d = true)
    (acc : List (JVal × List (JVal × JVal))) :
    evStep acc d = Except.ok (kdictUpd acc (JVal.str (addrStr d)) (expFold (esList d))) := by
  have hm := exposureMap_wf h
  obtain ⟨a, r, c, es, ids, rfl, h1, h2, h3, h4⟩ := wfDoc_cases h
  have haddr : addrStr [("address", JVal.str a), ("risk", r), ("cluster", c),
      ("exposures", JVal.arr es), ("addressIdentifications", JVal.arr ids)] = a := by
    simp [addrStr, assocLook, List.find?]
  rw [haddr]
  simp only [evStep, hm, Except.bind, getKey, assocLook, List.find?]
  norm_num

theorem exposureValues_wf {rs : List Obj} (h : ∀ d ∈ rs, wfDoc d = true) :
    exposureValues rs = Except.ok (evExpected rs) := by
  unfold exposureValues evExpected
  generalize hacc : ([] : List (JVal × List (JVal × JVal))) = acc
  clear hacc
  induction rs generalizing acc with
  | nil => rfl
  | cons d t ih =>
    rw [List.foldl_cons]
    simp only [exceptFoldlM, evStep_wf (h d (List.mem_cons_self _ _)), Except.bind]
    exact ih (fun x hx => h x (List.mem_cons_of_mem _ hx)) _

/-- On a batch with pairwise-distinct addresses, `exposure_values` maps each
document's address to that document's own exposure dict. -/
theorem evExpected_look {rs : List Obj} (hnd : (rs.map addrStr).Nodup)
    {d : Obj} (hd : d ∈ rs) :
    kdictLook (evExpected rs) (JVal.str (addrStr d)) = some (expFold (esList d)) := by
  unfold evExpected
  rw [kdictLook_fold_str addrStr (fun x => expFold (esList x))]
  have hsome : (rs.reverse.find? (fun x => addrStr x = addrStr d)).isSome := by
    rw [List.find?_isSome]
    exact ⟨d, List.mem_reverse.mpr hd, by simp⟩
  rcases Option.isSome_iff_exists.mp hsome with ⟨x, hx⟩
  rw [hx]
  have hpx := List.find?_some hx
  have hxmem : x ∈ rs := List.mem_reverse.mp (List.mem_of_find?_eq_some hx)
  have hax : addrStr x = addrStr d := by simpa using hpx
  rw [List.inj_on_of_nodup_map hnd hxmem hd hax]

/-! ## The flatten stage on well-formed input -/

/-- The flattened records one document contributes. -/
def flatRows (d : Obj) : List Obj :=
  (effIds d).map (fun v => flatten_dict (dictUpd d "addressIdentifications" v) "")

theorem exceptMapM_ok {α β : Type} {f : α → Except String β} {g : α → β} (l : List α)
    (h : ∀ x ∈ l, f x = Except.ok (g x)) : exceptMapM f l = Except.ok (l.map g) := by
  induction l with
  | nil => rfl
  | cons x t ih =>
    simp only [exceptMapM, h x (List.mem_cons_self _ _), Except.bind,
      ih (fun y hy => h y (List.mem_cons_of_mem _ hy)), List.map_cons]

theorem flattenResponse_wf {d : Obj} (h : wfDoc d = true) :
    flattenResponse d = Except.ok (flatRows d) := by
  obtain ⟨a, r, c, es, ids, rfl, h1, h2, h3, h4⟩ := wfDoc_cases h
  have hids : idsList [("address", JVal.str a), ("risk", r), ("cluster", c),
      ("exposures", JVal.arr es), ("addressIdentifications", JVal.arr ids)] = ids := by
    simp [idsList, assocLook, List.find?]
  cases ids with
  | nil =>
    simp [flattenResponse, flatRows, getKey, assocLook, List.find?, truthy, pyIter,
      effIds, hids, Except.bind]
  | cons x t =>
    simp [flattenResponse, flatRows, getKey, assocLook, List.find?, truthy, pyIter,
      effIds, hids, Except.bind]

theorem flattenStage_wf {rs : List Obj} (h : ∀ d ∈ rs, wfDoc d = true) :
    flattenStage rs = Except.ok (rs.flatMap flatRows) := by
  unfold flattenStage
  rw [exceptMapM_ok rs (fun d hd => flattenResponse_wf (h d hd))]
  simp [Except.bind, List.flatMap_def]

/-! ## Column membership for `DF.ofRecords` -/

theorem unionKeys_mem (r : Obj) : ∀ (acc : List String) (k : String),
    k ∈ unionKeys acc r ↔ k ∈ acc ∨ k ∈ r.map Prod.fst := by
  induction r with
  | nil =>
    intro acc k
    simp [unionKeys]
  | cons p t ih =>
    intro acc k
    unfold unionKeys at ih ⊢
    rw [List.foldl_cons]
    rw [ih]
    by_cases hc : acc.contains p.1 = true
    · rw [if_pos hc]
      have hpacc : p.1 ∈ acc := by simpa using hc
      simp only [List.map_cons, List.mem_cons]
      constructor
      · rintro (hk | hk)
        · exact Or.inl hk
        · exact Or.inr (Or.inr hk)
      · rintro (hk | hk | hk)
        · exact Or.inl hk
        · exact Or.inl (hk ▸ hpacc)
        · exact Or.inr hk
    · rw [if_neg hc]
      simp only [List.map_cons, List.mem_cons, List.mem_append, List.mem_singleton]
      tauto

theorem unionKeys_fold_mem (rs : List Obj) : ∀ (acc : List String) (k : String),
    k ∈ rs.foldl unionKeys acc ↔ k ∈ acc ∨ ∃ r ∈ rs, k ∈ r.map Prod.fst := by
  induction rs with
  | nil =>
    intro acc k
    simp
  | cons r t ih =>
    intro acc k
    rw [List.foldl_cons, ih, unionKeys_mem]
    simp only [List.mem_cons]
    constructor
    · rintro ((hk | hk) | ⟨x, hx, hkx⟩)
      · exact Or.inl hk
      · exact Or.inr ⟨r, Or.inl rfl, hk⟩
      · exact Or.inr ⟨x, Or.inr hx, hkx⟩
    · rintro (hk | ⟨x, hx | hx, hkx⟩)
      · exact Or.inl (Or.inl hk)
      · exact Or.inl (Or.inr (hx ▸ hkx))
      · exact Or.inr ⟨x, hx, hkx⟩

theorem ofRecords_cols_mem {rs : List Obj} {k : String} :
    k ∈ (DF.ofRecords rs).cols ↔ ∃ r ∈ rs, k ∈ r.map Prod.fst := by
  unfold DF.ofRecords
  rw [unionKeys_fold_mem]
  simp

/-! ## Shaped documents and flat-row facts -/

/-- A document of the schema shape, used to state per-document lemmas. -/
def mkDoc (a : String) (r c : JVal) (es ids : List JVal) : Obj :=
  [("address", JVal.str a), ("risk", r), ("cluster", c),
   ("exposures", JVal.arr es), ("addressIdentifications", JVal.arr ids)]

theorem wfDoc_shape {d : Obj} (h : wfDoc d = true) :
    ∃ a r c es ids, d = mkDoc a r c es ids ∧
      wfRisk r = true ∧ wfCluster c = true ∧
      (∀ e ∈ es, wfExposure e = true) ∧ (∀ v ∈ ids, wfIdent v = true) := by
  obtain ⟨a, r, c, es, ids, hd, h1, h2, h3, h4⟩ := wfDoc_cases h
  exact ⟨a, r, c, es, ids, hd, h1, h2, h3, h4⟩

theorem idsList_mkDoc (a : String) (r c : JVal) (es ids : List JVal) :
    idsList (mkDoc a r c es ids) = ids := by
  simp [idsList, mkDoc, assocLook, List.find?]

theorem esList_mkDoc (a : String) (r c : JVal) (es ids : List JVal) :
    esList (mkDoc a r c es ids) = es := by
  simp [esList, mkDoc, assocLook, List.find?]

theorem addrStr_mkDoc (a : String) (r c : JVal) (es ids : List JVal) :
    addrStr (mkDoc a r c es ids) = a := by
  simp [addrStr, mkDoc, assocLook, List.find?]

theorem addrVal_mkDoc (a : String) (r c : JVal) (es ids : List JVal) :
    addrVal (mkDoc a r c es ids) = JVal.str a := by
  simp [addrVal, mkDoc, assocLook, List.find?]

theorem effIds_mkDoc (a : String) (r c : JVal) (es ids : List JVal) :
    effIds (mkDoc a r c es ids) = if ids.isEmpty then [JVal.obj []] else ids := by
  unfold effIds
  rw [idsList_mkDoc]

theorem effIds_mem_wf {ids : List JVal} (h4 : ∀ x ∈ ids, wfIdent x = true)
    {v : JVal} (hv : v ∈ (if ids.isEmpty then [JVal.obj []] else ids)) :
    wfIdent v = true ∨ v = JVal.obj [] := by
  by_cases hids : ids.isEmpty
  · rw [if_pos hids] at hv
    right
    simpa using hv
  · rw [if_neg hids] at hv
    left
    exact h4 v hv

/-- One flattened record: the shallow copy with one substituted
identification entry, flattened. -/
def flatOne (d : Obj) (v : JVal) : Obj :=
  flatten_dict (dictUpd d "addressIdentifications" v) ""

theorem flatRows_eq (d : Obj) : flatRows d = (effIds d).map (flatOne d) := rfl

theorem finalRow_eq (d : Obj) (v : JVal) :
    finalRow d v = (flatOne d v).filter (fun p => p.1 ≠ "exposures") ++
      all_categories.map (fun c => (c, catVal d c)) := rfl

theorem flatOne_mkDoc {a : String} {r c : JVal} {es ids : List JVal} {v : JVal}
    (h1 : wfRisk r = true) (h2 : wfCluster c = true)
    (hv : wfIdent v = true ∨ v = JVal.obj []) :
    flatOne (mkDoc a r c es ids) v =
      [("address", JVal.str a), ("risk", r)] ++ clusterPart c ++
        [("exposures", JVal.arr es)] ++ identPart v := by
  unfold flatOne mkDoc
  exact flatRow_closed a r c es ids v h1 h2 hv

theorem assocLook_cons (p : String × JVal) (l : Obj) (k : String) :
    assocLook (p :: l) k = if p.1 = k then some p.2 else assocLook l k := by
  unfold assocLook
  rw [List.find?_cons]
  by_cases h : p.1 = k <;> simp [h]

theorem assocLook_append (l1 l2 : Obj) (k : String) :
    assocLook (l1 ++ l2) k = (assocLook l1 k).or (assocLook l2 k) := by
  unfold assocLook
  rw [List.find?_append]
  cases List.find? (fun p => p.1 = k) l1 <;> simp [Option.or]

theorem assocLook_eq_none_iff {l : Obj} {k : String} :
    assocLook l k = none ↔ k ∉ l.map Prod.fst := by
  unfold assocLook
  rw [Option.map_eq_none', List.find?_eq_none]
  simp only [decide_eq_true_eq, List.mem_map, not_exists, not_and]

theorem assocLook_map_pairs (f : String → JVal) (cs : List String) (k : String) :
    assocLook (cs.map (fun c => (c, f c))) k = if k ∈ cs then some (f k) else none := by
  induction cs with
  | nil => simp [assocLook]
  | cons c0 t ih =>
    rw [List.map_cons, assocLook_cons, ih]
    by_cases h : c0 = k
    · subst h
      simp
    · simp only [h, if_false, List.mem_cons]
      have hk : ¬ k = c0 := fun hkc => h hkc.symm
      simp [hk]

/-- All keys a flattened well-formed record can carry. -/
def flatKeySet : List String :=
  ["address", "risk", "cluster", "cluster_name", "cluster_category", "exposures",
   "addressIdentifications_name", "addressIdentifications_category",
   "addressIdentifications_description"]

theorem clusterPart_keys {c : JVal} (h : wfCluster c = true) :
    ∀ k ∈ (clusterPart c).map Prod.fst, k ∈ flatKeySet := by
  rcases wfCluster_cases h with rfl | ⟨n, cat, rfl⟩ <;>
    · intro k hk
      simp [clusterPart] at hk
      rcases hk with rfl | rfl <;> simp [flatKeySet]

theorem identPart_keys {v : JVal} (hv : wfIdent v = true ∨ v = JVal.obj []) :
    ∀ k ∈ (identPart v).map Prod.fst, k ∈ flatKeySet := by
  rcases hv with hv | rfl
  · obtain ⟨n, c, ds, rfl⟩ := wfIdent_cases hv
    intro k hk
    simp [identPart] at hk
    rcases hk with rfl | rfl | rfl <;> simp [flatKeySet]
  · intro k hk
    simp [identPart] at hk

theorem flatOne_keys {a : String} {r c : JVal} {es ids : List JVal} {v : JVal}
    (h1 : wfRisk r = true) (h2 : wfCluster c = true)
    (hv : wfIdent v = true ∨ v = JVal.obj []) :
    ∀ k ∈ (flatOne (mkDoc a r c es ids) v).map Prod.fst, k ∈ flatKeySet := by
  rw [flatOne_mkDoc h1 h2 hv]
  intro k hk
  rw [List.map_append, List.map_append, List.map_append] at hk
  rw [List.mem_append, List.mem_append, List.mem_append] at hk
  rcases hk with ((hk | hk) | hk) | hk
  · simp only [List.map_cons, List.map_nil, List.mem_cons, List.not_mem_nil,
      or_false] at hk
    rcases hk with rfl | rfl <;> simp [flatKeySet]
  · exact clusterPart_keys h2 k hk
  · simp only [List.map_cons, List.map_nil, List.mem_cons, List.not_mem_nil,
      or_false] at hk
    subst hk
    simp [flatKeySet]
  · exact identPart_keys hv k hk

theorem flatOne_address {a : String} {r c : JVal} {es ids : List JVal} {v : JVal}
    (h1 : wfRisk r = true) (h2 : wfCluster c = true)
    (hv : wfIdent v = true ∨ v = JVal.obj []) :
    assocLook (flatOne (mkDoc a r c es ids) v) "address" = some (JVal.str a) := by
  rw [flatOne_mkDoc h1 h2 hv]
  simp [assocLook_cons]

theorem flatOne_exposures_mem {a : String} {r c : JVal} {es ids : List JVal} {v : JVal}
    (h1 : wfRisk r = true) (h2 : wfCluster c = true)
    (hv : wfIdent v = true ∨ v = JVal.obj []) :
    "exposures" ∈ (flatOne (mkDoc a r c es ids) v).map Prod.fst := by
  rw [flatOne_mkDoc h1 h2 hv]
  simp

/-! ## The pivot stage -/

theorem dictUpd_append_of_not_mem {l : Obj} {k : String} (h : k ∉ l.map Prod.fst) (v : JVal) :
    dictUpd l k v = l ++ [(k, v)] := by
  unfold dictUpd
  rw [if_neg]
  simpa using h

theorem assocLook_append_single_ne {r : Obj} {c0 k : String} (h : c0 ≠ k) (x : JVal) :
    assocLook (r ++ [(c0, x)]) k = assocLook r k := by
  rw [assocLook_append]
  rw [show assocLook [(c0, x)] k = none from by simp [assocLook, List.find?, h]]
  cases assocLook r k <;> simp [Option.or]

/-- The value the pivot writes into one row for one category column. -/
def pivotVal (ev : List (JVal × List (JVal × JVal))) (r : Obj) (c : String) : JVal :=
  (kdictLook ((kdictLook ev ((assocLook r "address").getD JVal.null)).getD [])
    (JVal.str c)).getD (JVal.num 0)

theorem pivot_fold (ev : List (JVal × List (JVal × JVal))) (cats : List String) :
    ∀ df : DF,
    "address" ∈ df.cols →
    "address" ∉ cats →
    cats.Nodup →
    (∀ c ∈ cats, c ∉ df.cols) →
    (∀ r ∈ df.rows, ∀ c ∈ cats, c ∉ r.map Prod.fst) →
    (∀ r ∈ df.rows, (kdictLook ev ((assocLook r "address").getD JVal.null)).isSome) →
    exceptFoldlM (fun d category => d.applyCol category (catValue ev category d.cols)) df cats =
      Except.ok ⟨df.cols ++ cats, df.rows.map (fun r =>
        r ++ cats.map (fun c => (c, pivotVal ev r c)))⟩ := by
  induction cats with
  | nil =>
    intro df _ _ _ _ _ _
    simp [exceptFoldlM]
  | cons c0 ct ih =>
    intro df haddr hacats hnd hcols hkeys hev
    have hc0a : c0 ≠ "address" := fun h => hacats (h ▸ List.mem_cons_self _ _)
    have hstep : df.applyCol c0 (catValue ev c0 df.cols) =
        Except.ok ⟨df.cols ++ [c0], df.rows.map (fun r => r ++ [(c0, pivotVal ev r c0)])⟩ := by
      unfold DF.applyCol
      have hmap : exceptMapM (fun r => (catValue ev c0 df.cols r).bind
          (fun v => Except.ok (dictUpd r c0 v))) df.rows =
          Except.ok (df.rows.map (fun r => r ++ [(c0, pivotVal ev r c0)])) := by
        apply exceptMapM_ok
        intro r hr
        have h1 : catValue ev c0 df.cols r = Except.ok (pivotVal ev r c0) := by
          unfold catValue
          rw [if_pos (by simpa using haddr)]
          rcases Option.isSome_iff_exists.mp (hev r hr) with ⟨m, hm⟩
          simp [Except.bind, hm, pivotVal]
        rw [h1]
        simp only [Except.bind]
        rw [dictUpd_append_of_not_mem (hkeys r hr c0 (List.mem_cons_self _ _))]
      rw [hmap]
      simp only [Except.bind]
      rw [if_neg (by simpa using hcols c0 (List.mem_cons_self _ _))]
    simp only [exceptFoldlM, hstep, Except.bind]
    have hih := ih ⟨df.cols ++ [c0], df.rows.map (fun r => r ++ [(c0, pivotVal ev r c0)])⟩
      (by simp [haddr])
      (fun h => hacats (List.mem_cons_of_mem _ h))
      (List.Nodup.of_cons hnd)
      ?hcols2 ?hkeys2 ?hev2
    case hcols2 =>
      intro c hc
      simp only [List.mem_append, List.mem_singleton, not_or]
      refine ⟨hcols c (List.mem_cons_of_mem _ hc), ?_⟩
      intro hcc0
      exact (List.nodup_cons.mp hnd).1 (hcc0 ▸ hc)
    case hkeys2 =>
      intro r hr c hc
      rcases List.mem_map.mp hr with ⟨r0, hr0, rfl⟩
      simp only [List.map_append, List.mem_append, List.map_cons, List.map_nil,
        List.mem_singleton, not_or, List.mem_cons, List.not_mem_nil, or_false]
      refine ⟨hkeys r0 hr0 c (List.mem_cons_of_mem _ hc), ?_⟩
      intro hcc0
      exact (List.nodup_cons.mp hnd).1 (hcc0 ▸ hc)
    case hev2 =>
      intro r hr
      rcases List.mem_map.mp hr with ⟨r0, hr0, rfl⟩
      rw [assocLook_append_single_ne hc0a]
      exact hev r0 hr0
    rw [hih]
    have hrows : (df.rows.map (fun r => r ++ [(c0, pivotVal ev r c0)])).map
        (fun r => r ++ ct.map (fun c => (c, pivotVal ev r c))) =
        df.rows.map (fun r => r ++ (c0, pivotVal ev r c0) ::
          ct.map (fun c => (c, pivotVal ev r c))) := by
      rw [List.map_map]
      apply List.map_congr_left
      intro r hr
      simp only [Function.comp_apply]
      have hstable : ∀ c ∈ ct,
          (fun c => (c, pivotVal ev (r ++ [(c0, pivotVal ev r c0)]) c)) c =
          (fun c => (c, pivotVal ev r c)) c := by
        intro c hc
        simp only
        unfold pivotVal
        rw [assocLook_append_single_ne hc0a]
      rw [List.map_congr_left hstable, List.append_assoc, List.singleton_append]
    rw [hrows]
    simp [List.append_assoc]

/-! ## Ensure and select -/

theorem ensureCols_rows (names : List String) : ∀ df : DF,
    (DF.ensureCols df names).rows = df.rows := by
  induction names with
  | nil => intro df; rfl
  | cons n t ih =>
    intro df
    unfold DF.ensureCols at ih ⊢
    rw [List.foldl_cons]
    by_cases hc : df.cols.contains n = true
    · rw [if_pos hc]
      exact ih df
    · rw [if_neg hc]
      exact ih ⟨df.cols ++ [n], df.rows⟩

theorem ensureCols_cols_mem (names : List String) : ∀ (df : DF) (k : String),
    k ∈ (DF.ensureCols df names).cols ↔ k ∈ df.cols ∨ k ∈ names := by
  induction names with
  | nil => intro df k; simp [DF.ensureCols]
  | cons n t ih =>
    intro df k
    unfold DF.ensureCols at ih ⊢
    rw [List.foldl_cons]
    by_cases hc : df.cols.contains n = true
    · rw [if_pos hc]
      rw [ih df k]
      have hn : n ∈ df.cols := by simpa using hc
      simp only [List.mem_cons]
      constructor
      · rintro (hk | hk)
        · exact Or.inl hk
        · exact Or.inr (Or.inr hk)
      · rintro (hk | hk | hk)
        · exact Or.inl hk
        · exact Or.inl (hk ▸ hn)
        · exact Or.inr hk
    · rw [if_neg hc]
      rw [ih ⟨df.cols ++ [n], df.rows⟩ k]
      simp only [List.mem_append, List.mem_singleton, List.mem_cons]
      tauto

theorem mem_keys_of_assocLook_some {l : Obj} {k : String} {v : JVal}
    (h : assocLook l k = some v) : k ∈ l.map Prod.fst := by
  by_contra hk
  rw [← assocLook_eq_none_iff] at hk
  rw [hk] at h
  cases h

/-- Membership in the flattened batch comes from one document and one of its
effective identification entries. -/
theorem flat_mem_shape {rs : List Obj} {r : Obj} (hr : r ∈ rs.flatMap flatRows) :
    ∃ d ∈ rs, ∃ v ∈ effIds d, r = flatOne d v := by
  rcases List.mem_flatMap.mp hr with ⟨d, hd, hrd⟩
  rw [flatRows_eq] at hrd
  rcases List.mem_map.mp hrd with ⟨v, hv, rfl⟩
  exact ⟨d, hd, v, hv, rfl⟩

theorem effIds_ne_nil (d : Obj) : effIds d ≠ [] := by
  unfold effIds
  by_cases h : (idsList d).isEmpty
  · rw [if_pos h]
    simp
  · rw [if_neg h]
    simpa [List.isEmpty_iff] using h

/-- Inside a well-formed batch, the pivot writes each flat row's category
cell from that row's own document's exposure dict. -/
theorem pivotVal_flatOne {rs : List Obj} (hwf : ∀ x ∈ rs, wfDoc x = true)
    (hnd : (rs.map addrStr).Nodup) {d : Obj} (hd : d ∈ rs) {v : JVal}
    (hv : v ∈ effIds d) (c : String) :
    pivotVal (evExpected rs) (flatOne d v) c = catVal d c := by
  obtain ⟨a, r, cl, es, ids, hdeq, h1, h2, h3, h4⟩ := wfDoc_shape (hwf d hd)
  subst hdeq
  rw [effIds_mkDoc] at hv
  have hvwf := effIds_mem_wf h4 hv
  unfold pivotVal
  rw [flatOne_address h1 h2 hvwf]
  rw [show ((some (JVal.str a)).getD JVal.null) = JVal.str a from rfl]
  rw [show (JVal.str a) = JVal.str (addrStr (mkDoc a r cl es ids)) from by
    rw [addrStr_mkDoc]]
  rw [evExpected_look hnd hd]
  rfl

theorem ensure_select (df : DF) (names : List String) :
    (df.ensureCols names).select names = Except.ok ⟨names, df.rows⟩ := by
  have hcond : names.all (fun n => (df.ensureCols names).cols.contains n) = true := by
    rw [List.all_eq_true]
    intro n hn
    simpa using (ensureCols_cols_mem names df n).mpr (Or.inr hn)
  unfold DF.select
  rw [if_pos hcond, ensureCols_rows]

/-- The main characterization: on a non-empty well-formed batch,
`process_responses` succeeds, its columns are exactly `column_order`, and its
rows are one `finalRow` per document per effective identification entry. -/
theorem process_responses_wf {rs : List Obj} (h : wfBatch rs) (hne : rs ≠ []) :
    process_responses rs = Except.ok ⟨column_order, expectedRows rs⟩ := by
  obtain ⟨hwf, hnd⟩ := h
  have hdisj : ∀ k ∈ flatKeySet, k ∉ all_categories := by decide
  have hExpoNotCat : "exposures" ∉ all_categories := by decide
  have hflat := flattenStage_wf hwf
  have hevs := exposureValues_wf hwf
  have hrowfacts : ∀ r ∈ rs.flatMap flatRows, ∃ d ∈ rs,
      assocLook r "address" = some (JVal.str (addrStr d)) ∧
      (∀ k ∈ r.map Prod.fst, k ∈ flatKeySet) ∧
      "exposures" ∈ r.map Prod.fst := by
    intro r hr
    rcases flat_mem_shape hr with ⟨d, hd, v, hv, rfl⟩
    obtain ⟨a, rr, cl, es, ids, hdeq, h1, h2, h3, h4⟩ := wfDoc_shape (hwf d hd)
    subst hdeq
    rw [effIds_mkDoc] at hv
    have hvwf := effIds_mem_wf h4 hv
    refine ⟨mkDoc a rr cl es ids, hd, ?_, flatOne_keys h1 h2 hvwf,
      flatOne_exposures_mem h1 h2 hvwf⟩
    rw [flatOne_address h1 h2 hvwf, addrStr_mkDoc]
  have hflatne : rs.flatMap flatRows ≠ [] := by
    rcases rs with _ | ⟨d0, rt⟩
    · exact absurd rfl hne
    · have h0 : flatRows d0 ≠ [] := by
        rw [flatRows_eq]
        intro hmap
        exact effIds_ne_nil d0 (List.map_eq_nil_iff.mp hmap)
      rw [List.flatMap_cons]
      intro happ
      exact h0 (List.append_eq_nil.mp happ).1
  have hr0 : ∃ r0, r0 ∈ rs.flatMap flatRows := List.exists_mem_of_ne_nil _ hflatne
  have haddrcol : "address" ∈ (DF.ofRecords (rs.flatMap flatRows)).cols := by
    rcases hr0 with ⟨r0, hr0⟩
    rcases hrowfacts r0 hr0 with ⟨d, _, ha, _, _⟩
    exact ofRecords_cols_mem.mpr ⟨r0, hr0, mem_keys_of_assocLook_some ha⟩
  have hexpocol : "exposures" ∈ (DF.ofRecords (rs.flatMap flatRows)).cols := by
    rcases hr0 with ⟨r0, hr0⟩
    rcases hrowfacts r0 hr0 with ⟨d, _, _, _, he⟩
    exact ofRecords_cols_mem.mpr ⟨r0, hr0, he⟩
  have hcatscols : ∀ c ∈ all_categories, c ∉ (DF.ofRecords (rs.flatMap flatRows)).cols := by
    intro c hc hmem
    rcases ofRecords_cols_mem.mp hmem with ⟨r, hr, hkr⟩
    rcases hrowfacts r hr with ⟨d, _, _, hkeys, _⟩
    exact (hdisj c (hkeys c hkr)) hc
  have hrowskeys : ∀ r ∈ (DF.ofRecords (rs.flatMap flatRows)).rows,
      ∀ c ∈ all_categories, c ∉ r.map Prod.fst := by
    intro r hr c hc hkr
    rcases hrowfacts r hr with ⟨d, _, _, hkeys, _⟩
    exact (hdisj c (hkeys c hkr)) hc
  have hevsome : ∀ r ∈ (DF.ofRecords (rs.flatMap flatRows)).rows,
      (kdictLook (evExpected rs) ((assocLook r "address").getD JVal.null)).isSome := by
    intro r hr
    rcases hrowfacts r hr with ⟨d, hd, ha, _, _⟩
    rw [ha]
    rw [show ((some (JVal.str (addrStr d))).getD JVal.null) = JVal.str (addrStr d) from rfl]
    rw [evExpected_look hnd hd]
    rfl
  have hpivot : pivotStage (evExpected rs) (DF.ofRecords (rs.flatMap flatRows)) =
      Except.ok ⟨(DF.ofRecords (rs.flatMap flatRows)).cols ++ all_categories,
        (DF.ofRecords (rs.flatMap flatRows)).rows.map (fun r =>
          r ++ all_categories.map (fun c => (c, pivotVal (evExpected rs) r c)))⟩ :=
    pivot_fold (evExpected rs) all_categories (DF.ofRecords (rs.flatMap flatRows))
      haddrcol (by decide) (by decide) hcatscols hrowskeys hevsome
  have hdrop : (DF.mk ((DF.ofRecords (rs.flatMap flatRows)).cols ++ all_categories)
      ((DF.ofRecords (rs.flatMap flatRows)).rows.map (fun r =>
        r ++ all_categories.map (fun c => (c, pivotVal (evExpected rs) r c))))).dropCol
      "exposures" =
      Except.ok ⟨((DF.ofRecords (rs.flatMap flatRows)).cols ++ all_categories).erase "exposures",
        ((DF.ofRecords (rs.flatMap flatRows)).rows.map (fun r =>
          r ++ all_categories.map (fun c => (c, pivotVal (evExpected rs) r c)))).map
          (fun r => r.filter (fun p => p.1 ≠ "exposures"))⟩ := by
    unfold DF.dropCol
    rw [if_pos (by simpa using Or.inl hexpocol)]
  have hfilter : ((DF.ofRecords (rs.flatMap flatRows)).rows.map (fun r =>
      r ++ all_categories.map (fun c => (c, pivotVal (evExpected rs) r c)))).map
      (fun r => r.filter (fun p => p.1 ≠ "exposures")) =
      (rs.flatMap flatRows).map (fun r => r.filter (fun p => p.1 ≠ "exposures") ++
        all_categories.map (fun c => (c, pivotVal (evExpected rs) r c))) := by
    rw [List.map_map]
    apply List.map_congr_left
    intro r hr
    simp only [Function.comp_apply]
    rw [List.filter_append]
    congr 1
  have hrows_expected : (rs.flatMap flatRows).map (fun r =>
      r.filter (fun p => p.1 ≠ "exposures") ++
      all_categories.map (fun c => (c, pivotVal (evExpected rs) r c))) =
      expectedRows rs := by
    rw [List.map_flatMap]
    unfold expectedRows
    rw [List.flatMap_def, List.flatMap_def]
    congr 1
    apply List.map_congr_left
    intro d hd
    rw [flatRows_eq, List.map_map]
    apply List.map_congr_left
    intro v hv
    simp only [Function.comp_apply]
    rw [finalRow_eq]
    congr 1
    apply List.map_congr_left
    intro c _
    rw [pivotVal_flatOne hwf hnd hd hv c]
  unfold process_responses
  rw [hflat]
  simp only [Except.bind]
  rw [hevs]
  simp only [Except.bind]
  rw [hpivot]
  simp only [Except.bind]
  rw [hdrop]
  simp only [Except.bind]
  rw [show (DF.mk (((DF.ofRecords (rs.flatMap flatRows)).cols ++ all_categories).erase
      "exposures") (((DF.ofRecords (rs.flatMap flatRows)).rows.map (fun r =>
        r ++ all_categories.map (fun c => (c, pivotVal (evExpected rs) r c)))).map
        (fun r => r.filter (fun p => p.1 ≠ "exposures")))).ensureCols column_order =
      DF.ensureCols ⟨(((DF.ofRecords (rs.flatMap flatRows)).cols ++ all_categories).erase
      "exposures"), expectedRows rs⟩ column_order from by rw [hfilter, hrows_expected]]
  rw [ensure_select]

/-! ## Cell-level facts about final rows -/

theorem expectedRows_mem {rs : List Obj} {r : Obj} (hr : r ∈ expectedRows rs) :
    ∃ d ∈ rs, ∃ v ∈ effIds d, r = finalRow d v := by
  rcases List.mem_flatMap.mp hr with ⟨d, hd, hrd⟩
  rcases List.mem_map.mp hrd with ⟨v, hv, rfl⟩
  exact ⟨d, hd, v, hv, rfl⟩

theorem flatKeySet_not_cat : ∀ k ∈ flatKeySet, k ∉ all_categories := by decide

theorem finalRow_look_none {d : Obj} {v : JVal} {k : String}
    (hkflat : k ∉ (flatOne d v).map Prod.fst) (hkcat : k ∉ all_categories) :
    assocLook (finalRow d v) k = none := by
  rw [finalRow_eq, assocLook_append]
  have h1 : assocLook ((flatOne d v).filter (fun p => p.1 ≠ "exposures")) k = none := by
    rw [assocLook_eq_none_iff]
    intro hmem
    apply hkflat
    rcases List.mem_map.mp hmem with ⟨p, hp, rfl⟩
    exact List.mem_map.mpr ⟨p, List.mem_of_mem_filter hp, rfl⟩
  rw [h1, assocLook_map_pairs, if_neg hkcat]
  rfl

theorem finalRow_look_cat {d : Obj} (hwfd : wfDoc d = true) {v : JVal}
    (hv : v ∈ effIds d) {c : String} (hc : c ∈ all_categories) :
    assocLook (finalRow d v) c = some (catVal d c) := by
  obtain ⟨a, rr, cl, es, ids, hdeq, h1, h2, h3, h4⟩ := wfDoc_shape hwfd
  subst hdeq
  rw [effIds_mkDoc] at hv
  have hvwf := effIds_mem_wf h4 hv
  rw [finalRow_eq, assocLook_append]
  have hnone : assocLook ((flatOne (mkDoc a rr cl es ids) v).filter
      (fun p => p.1 ≠ "exposures")) c = none := by
    rw [assocLook_eq_none_iff]
    intro hmem
    have hck : c ∈ (flatOne (mkDoc a rr cl es ids) v).map Prod.fst := by
      rcases List.mem_map.mp hmem with ⟨p, hp, rfl⟩
      exact List.mem_map.mpr ⟨p, List.mem_of_mem_filter hp, rfl⟩
    exact flatKeySet_not_cat c (flatOne_keys h1 h2 hvwf c hck) hc
  rw [hnone, assocLook_map_pairs, if_pos hc]
  rfl

theorem finalRow_address {d : Obj} (hwfd : wfDoc d = true) {v : JVal}
    (hv : v ∈ effIds d) :
    assocLook (finalRow d v) "address" = some (addrVal d) := by
  obtain ⟨a, rr, cl, es, ids, hdeq, h1, h2, h3, h4⟩ := wfDoc_shape hwfd
  subst hdeq
  rw [effIds_mkDoc] at hv
  have hvwf := effIds_mem_wf h4 hv
  rw [finalRow_eq, addrVal_mkDoc, assocLook_append]
  rw [flatOne_mkDoc h1 h2 hvwf]
  rw [List.filter_append, List.filter_append, List.filter_append, assocLook_append]
  rw [show (([("address", JVal.str a), ("risk", rr)] : Obj).filter
      (fun p => p.1 ≠ "exposures")) = [("address", JVal.str a), ("risk", rr)] from by
    simp [List.filter]]
  rw [assocLook_append, assocLook_append, assocLook_cons]
  simp [Option.or]

theorem catVal_num {d : Obj} (hwfd : wfDoc d = true) (c : String) :
    ∃ q, catVal d c = JVal.num q := by
  obtain ⟨a, rr, cl, es, ids, hdeq, h1, h2, h3, h4⟩ := wfDoc_shape hwfd
  subst hdeq
  unfold catVal
  rw [esList_mkDoc, expFold_look h3 c]
  cases hf : es.reverse.find? (fun e => expCatStr e = some c) with
  | none => exact ⟨0, rfl⟩
  | some e =>
    obtain ⟨cs, q, rfl⟩ := wfExposure_cases
      (h3 e (List.mem_reverse.mp (List.mem_of_find?_eq_some hf)))
    refine ⟨q, ?_⟩
    simp [expValOf, assocLook, List.find?]

theorem catVal_zero {d : Obj} (hwfd : wfDoc d = true) {c : String}
    (hno : ∀ e ∈ esList d, expCatStr e ≠ some c) :
    catVal d c = JVal.num 0 := by
  obtain ⟨a, rr, cl, es, ids, hdeq, h1, h2, h3, h4⟩ := wfDoc_shape hwfd
  subst hdeq
  unfold catVal
  rw [esList_mkDoc] at hno ⊢
  rw [expFold_look h3 c]
  rw [List.find?_eq_none.mpr ?hn]
  case hn =>
    intro e he
    simpa using hno e (List.mem_reverse.mp he)
  rfl

theorem catVal_last {d : Obj} (hwfd : wfDoc d = true) {c : String} {e : JVal}
    (hlast : (esList d).reverse.find? (fun x => expCatStr x = some c) = some e) :
    catVal d c = expValOf e := by
  obtain ⟨a, rr, cl, es, ids, hdeq, h1, h2, h3, h4⟩ := wfDoc_shape hwfd
  subst hdeq
  unfold catVal
  rw [esList_mkDoc] at hlast ⊢
  rw [expFold_look h3 c, hlast]
  rfl

theorem row_doc_unique {rs : List Obj} (hwf : ∀ x ∈ rs, wfDoc x = true)
    (hnd : (rs.map addrStr).Nodup) {d d2 : Obj} (hd : d ∈ rs) (hd2 : d2 ∈ rs)
    (ha : addrVal d = addrVal d2) : d = d2 := by
  apply List.inj_on_of_nodup_map hnd hd hd2
  obtain ⟨a, rr, cl, es, ids, hdeq, _, _, _, _⟩ := wfDoc_shape (hwf d hd)
  obtain ⟨a2, rr2, cl2, es2, ids2, hdeq2, _, _, _, _⟩ := wfDoc_shape (hwf d2 hd2)
  subst hdeq
  subst hdeq2
  rw [addrVal_mkDoc, addrVal_mkDoc] at ha
  rw [addrStr_mkDoc, addrStr_mkDoc]
  simpa using ha

/-! ## Concrete sample inputs (mirroring `tests.py`) -/

/-- The first sample response of `tests.py`: empty exposures, empty
identifications. -/
def sampleDoc1 : Obj :=
  mkDoc "bc1pkfeeh92s89gcrr0gr92cku7kkxyy4lg34c8wkfjrp4rsxyc4w4vsffy4eu" (JVal.num 1)
    (JVal.obj [("name", JVal.str "Sample Cluster"), ("category", JVal.str "exchange")])
    [] []

/-- The second sample response of `tests.py`: one exposure, one
identification. -/
def sampleDoc2 : Obj :=
  mkDoc "32MbP3TCF9crsLNLjU5jGLDngHjZuHtYv1" (JVal.num 1)
    (JVal.obj [("name", JVal.str "Sample Cluster 2"), ("category", JVal.str "exchange")])
    [JVal.obj [("category", JVal.str "exchange"), ("value", JVal.num (1/2))]]
    [JVal.obj [("name", JVal.str "Sample ID"), ("category", JVal.str "exchange"),
      ("description", JVal.str "Sample Desc")]]

def sampleBatch : List Obj := [sampleDoc1, sampleDoc2]

/-- A document with a null cluster and no identifications (as in
`test_no_address_identifications`). -/
def nullClusterDoc : Obj :=
  mkDoc "0xE0db7340F6eC43Af8cDE15a464e24f062167b9AB" (JVal.str "Medium") JVal.null
    [JVal.obj [("category", JVal.str "darknet market"), ("value", JVal.num 51)],
     JVal.obj [("category", JVal.str "exchange"), ("value", JVal.num 10718)]]
    []

/-- A document with two exposures entries for the same category. -/
def dupCatDoc : Obj :=
  mkDoc "dupAddr" (JVal.num 1) JVal.null
    [JVal.obj [("category", JVal.str "exchange"), ("value", JVal.num 1)],
     JVal.obj [("category", JVal.str "exchange"), ("value", JVal.num 2)]]
    []

/-- A document with one exposures entry outside the fixed vocabulary. -/
def unknownCatDoc : Obj :=
  mkDoc "unkAddr" (JVal.num 1) JVal.null
    [JVal.obj [("category", JVal.str "space travel"), ("value", JVal.num 7)],
     JVal.obj [("category", JVal.str "exchange"), ("value", JVal.num 3)]]
    []

/-! ## The claims -/

/-- C1: on a non-empty batch of well-formed documents, the returned table
has one row per (document, identification) pair, a document with an empty
`addressIdentifications` list contributing exactly one row: the row count is
the sum over documents of `max 1 (number of identifications)`. -/
theorem C1_row_count (rs : List Obj) (h : wfBatch rs) (hne : rs ≠ []) :
    ∃ df, process_responses rs = Except.ok df ∧
      df.rows.length = (rs.map (fun d => max 1 (idsList d).length)).sum := by
  refine ⟨_, process_responses_wf h hne, ?_⟩
  show (expectedRows rs).length = _
  unfold expectedRows
  rw [List.length_flatMap]
  congr 1
  apply List.map_congr_left
  intro d _
  simp only [Function.comp_apply, List.length_map]
  unfold effIds
  by_cases hids : (idsList d).isEmpty
  · rw [if_pos hids, List.isEmpty_iff.mp hids]
    rfl
  · rw [if_neg hids]
    have hlen : 1 ≤ (idsList d).length := by
      rcases hl : idsList d with _ | ⟨x, t⟩
      · rw [hl] at hids
        simp at hids
      · simp
    omega

theorem C1_row_count_witness :
    ∃ df, process_responses sampleBatch = Except.ok df ∧ df.rows.length = 2 := by
  obtain ⟨df, hok, hlen⟩ := C1_row_count sampleBatch (by decide)
    (by simp [sampleBatch])
  refine ⟨df, hok, ?_⟩
  rw [hlen]
  rfl

/-- C2: whenever `process_responses` returns a table, its column list is
exactly `column_order` — the seven fixed columns followed by the 32 category
columns, no more, no fewer, in this order, for every input batch. -/
theorem C2_columns (rs : List Obj) (df : DF)
    (h : process_responses rs = Except.ok df) :
    df.cols = column_order := by
  unfold process_responses at h
  cases hf : flattenStage rs with
  | error e =>
    rw [hf] at h
    simp [Except.bind] at h
  | ok flat =>
    rw [hf] at h
    simp only [Except.bind] at h
    cases hev : exposureValues rs with
    | error e =>
      rw [hev] at h
      simp [Except.bind] at h
    | ok ev =>
      rw [hev] at h
      simp only [Except.bind] at h
      cases hp : pivotStage ev (DF.ofRecords flat) with
      | error e =>
        rw [hp] at h
        simp [Except.bind] at h
      | ok df1 =>
        rw [hp] at h
        simp only [Except.bind] at h
        cases hd : df1.dropCol "exposures" with
        | error e =>
          rw [hd] at h
          simp [Except.bind] at h
        | ok df2 =>
          rw [hd] at h
          simp only [Except.bind] at h
          unfold DF.select at h
          by_cases hc : column_order.all
              (fun n => (df2.ensureCols column_order).cols.contains n) = true
          · rw [if_pos hc] at h
            cases h
            rfl
          · rw [if_neg hc] at h
            cases h

theorem C2_columns_witness :
    ∃ df, process_responses sampleBatch = Except.ok df ∧ df.cols = column_order := by
  have hok : process_responses sampleBatch =
      Except.ok ⟨column_order, expectedRows sampleBatch⟩ :=
    process_responses_wf (by decide) (by simp [sampleBatch])
  exact ⟨_, hok, C2_columns sampleBatch _ hok⟩

/-- C9: on the empty batch, `process_responses` raises (the `exposures`
column is absent from the empty frame, so `df.drop("exposures", axis=1)`
raises a KeyError) instead of returning an empty table. -/
theorem C9_empty_batch :
    process_responses [] = Except.error "KeyError: exposures" := rfl

/-! ## Error propagation -/

theorem exceptMapM_error {α β : Type} {f : α → Except String β} {l : List α} {x : α}
    (hx : x ∈ l) {e : String} (he : f x = Except.error e) :
    ∃ e2, exceptMapM f l = Except.error e2 := by
  induction l with
  | nil => cases hx
  | cons y t ih =>
    rcases List.mem_cons.mp hx with rfl | hx2
    · exact ⟨e, by simp [exceptMapM, he, Except.bind]⟩
    · cases hfy : f y with
      | error e3 => exact ⟨e3, by simp [exceptMapM, hfy, Except.bind]⟩
      | ok vy =>
        rcases ih hx2 with ⟨e2, he2⟩
        exact ⟨e2, by simp [exceptMapM, hfy, he2, Except.bind]⟩

theorem exceptFoldlM_error {α σ : Type} {f : σ → α → Except String σ} {l : List α} {x : α}
    (hx : x ∈ l) (hf : ∀ s, ∃ e, f s x = Except.error e) :
    ∀ s, ∃ e2, exceptFoldlM f s l = Except.error e2 := by
  induction l with
  | nil => cases hx
  | cons y t ih =>
    intro s
    rcases List.mem_cons.mp hx with rfl | hx2
    · rcases hf s with ⟨e, he⟩
      exact ⟨e, by simp [exceptFoldlM, he, Except.bind]⟩
    · cases hfy : f s y with
      | error e3 => exact ⟨e3, by simp [exceptFoldlM, hfy, Except.bind]⟩
      | ok s2 =>
        rcases ih hx2 s2 with ⟨e2, he2⟩
        exact ⟨e2, by simp [exceptFoldlM, hfy, he2, Except.bind]⟩

/-- C3 counterexample: a batch holding a document that misses the required
keys is not processed with the document excluded and counted — the run
aborts with a KeyError. -/
theorem C3_counterexample :
    process_responses [[("address", JVal.str "a")]] =
      Except.error "KeyError: addressIdentifications" := rfl

/-- C3 (amended): a document missing one of the required keys `address`,
`exposures` or `addressIdentifications` makes `process_responses` raise a
KeyError; no document is excluded and no dropped-document count is
reported. -/
theorem C3_missing_key_error (rs : List Obj) (d : Obj) (hd : d ∈ rs)
    (hmiss : assocLook d "address" = none ∨ assocLook d "exposures" = none ∨
      assocLook d "addressIdentifications" = none) :
    ∃ e, process_responses rs = Except.error e := by
  unfold process_responses
  rcases hmiss with hm | hm | hm
  · have hstep : ∀ acc, ∃ e, evStep acc d = Except.error e := by
      intro acc
      cases hem : exposureMap d with
      | error e3 => exact ⟨e3, by simp [evStep, hem, Except.bind]⟩
      | ok m =>
        refine ⟨"KeyError: address", ?_⟩
        simp [evStep, hem, Except.bind, getKey, hm]
    cases hf : flattenStage rs with
    | error e => exact ⟨e, by simp [Except.bind]⟩
    | ok flat =>
      simp only [Except.bind]
      rcases exceptFoldlM_error hd hstep [] with ⟨e2, he2⟩
      refine ⟨e2, ?_⟩
      rw [show exposureValues rs = Except.error e2 from he2]
  · have hstep : ∀ acc, ∃ e, evStep acc d = Except.error e := by
      intro acc
      refine ⟨"KeyError: exposures", ?_⟩
      simp [evStep, exposureMap, Except.bind, getKey, hm]
    cases hf : flattenStage rs with
    | error e => exact ⟨e, by simp [Except.bind]⟩
    | ok flat =>
      simp only [Except.bind]
      rcases exceptFoldlM_error hd hstep [] with ⟨e2, he2⟩
      refine ⟨e2, ?_⟩
      rw [show exposureValues rs = Except.error e2 from he2]
  · have he : flattenResponse d = Except.error "KeyError: addressIdentifications" := by
      simp [flattenResponse, getKey, hm, Except.bind]
    rcases exceptMapM_error hd he with ⟨e2, he2⟩
    refine ⟨e2, ?_⟩
    rw [show flattenStage rs = Except.error e2 from by
      unfold flattenStage
      rw [he2]
      simp [Except.bind]]
    simp [Except.bind]

theorem C3_missing_key_error_witness :
    ∃ e, process_responses [[("address", JVal.str "a")]] = Except.error e :=
  C3_missing_key_error [[("address", JVal.str "a")]] [("address", JVal.str "a")]
    (List.mem_cons_self _ _) (Or.inr (Or.inr rfl))

/-- C4: on a well-formed batch every output row carries a numeric value in
each of the 32 category columns, and a category with no exposures entry for
the row's address reads exactly 0. -/
theorem C4_zero_fill (rs : List Obj) (h : wfBatch rs) (hne : rs ≠ []) :
    ∃ df, process_responses rs = Except.ok df ∧
      (∀ c ∈ all_categories, c ∈ df.cols) ∧
      ∀ row ∈ df.rows, ∀ c ∈ all_categories,
        (∃ q, (assocLook row c).getD JVal.null = JVal.num q) ∧
        (∀ d ∈ rs, assocLook row "address" = some (addrVal d) →
          (∀ e ∈ esList d, expCatStr e ≠ some c) →
          (assocLook row c).getD JVal.null = JVal.num 0) := by
  obtain ⟨hwf, hnd⟩ := h
  refine ⟨_, process_responses_wf ⟨hwf, hnd⟩ hne,
    fun c hc => by
      show c ∈ column_order
      unfold column_order
      exact List.mem_append.mpr (Or.inr hc), ?_⟩
  intro row hrow c hc
  rcases expectedRows_mem hrow with ⟨d2, hd2, v, hv, rfl⟩
  have hcell := finalRow_look_cat (hwf d2 hd2) hv hc
  constructor
  · rcases catVal_num (hwf d2 hd2) c with ⟨q, hq⟩
    refine ⟨q, ?_⟩
    rw [hcell, hq]
    rfl
  · intro d hd haddr hno
    have haeq : addrVal d2 = addrVal d := by
      have h2 := finalRow_address (hwf d2 hd2) hv
      rw [h2] at haddr
      simpa using haddr
    have hdd : d2 = d := row_doc_unique hwf hnd hd2 hd haeq
    subst hdd
    rw [hcell, catVal_zero (hwf d2 hd2) hno]
    rfl

theorem C4_zero_fill_witness :
    ∃ df, process_responses [nullClusterDoc] = Except.ok df ∧
      (∀ c ∈ all_categories, c ∈ df.cols) ∧
      ∀ row ∈ df.rows, ∀ c ∈ all_categories,
        (∃ q, (assocLook row c).getD JVal.null = JVal.num q) ∧
        (∀ d ∈ [nullClusterDoc], assocLook row "address" = some (addrVal d) →
          (∀ e ∈ esList d, expCatStr e ≠ some c) →
          (assocLook row c).getD JVal.null = JVal.num 0) :=
  C4_zero_fill [nullClusterDoc] (by decide) (by simp)

theorem flatOne_cluster_null_keys {a : String} {rr : JVal} {es ids : List JVal}
    {v : JVal} (h1 : wfRisk rr = true) (hv : wfIdent v = true ∨ v = JVal.obj [])
    {k : String} (hk : k ∈ (flatOne (mkDoc a rr JVal.null es ids) v).map Prod.fst) :
    k ≠ "cluster_name" ∧ k ≠ "cluster_category" := by
  rcases hv with hvw | rfl
  · obtain ⟨n, c2, ds, rfl⟩ := wfIdent_cases hvw
    rw [flatOne_mkDoc h1 (by rfl) (Or.inl hvw)] at hk
    simp [clusterPart, identPart] at hk
    rcases hk with rfl | rfl | rfl | rfl | rfl | rfl | rfl <;>
      exact ⟨by decide, by decide⟩
  · rw [flatOne_mkDoc h1 (by rfl) (Or.inr rfl)] at hk
    simp [clusterPart, identPart] at hk
    rcases hk with rfl | rfl | rfl | rfl <;> exact ⟨by decide, by decide⟩

/-- C6: a well-formed document with a null cluster is processed without
error, and the cluster-derived columns read null in every row for that
document's address. -/
theorem C6_null_cluster (rs : List Obj) (h : wfBatch rs) (hne : rs ≠ [])
    (d : Obj) (hd : d ∈ rs) (hcl : assocLook d "cluster" = some JVal.null) :
    ∃ df, process_responses rs = Except.ok df ∧
      ∀ row ∈ df.rows, assocLook row "address" = some (addrVal d) →
        (assocLook row "cluster_name").getD JVal.null = JVal.null ∧
        (assocLook row "cluster_category").getD JVal.null = JVal.null := by
  obtain ⟨hwf, hnd⟩ := h
  refine ⟨_, process_responses_wf ⟨hwf, hnd⟩ hne, ?_⟩
  intro row hrow haddr
  rcases expectedRows_mem hrow with ⟨d2, hd2, v, hv, rfl⟩
  have haeq : addrVal d2 = addrVal d := by
    have h2 := finalRow_address (hwf d2 hd2) hv
    rw [h2] at haddr
    simpa using haddr
  have hdd : d2 = d := row_doc_unique hwf hnd hd2 hd haeq
  subst hdd
  obtain ⟨a, rr, cl, es, ids, hdeq, h1, h2, h3, h4⟩ := wfDoc_shape (hwf d2 hd2)
  subst hdeq
  have hclnull : cl = JVal.null := by
    rw [show assocLook (mkDoc a rr cl es ids) "cluster" = some cl from by
      simp [mkDoc, assocLook, List.find?]] at hcl
    simpa using hcl
  subst hclnull
  rw [effIds_mkDoc] at hv
  have hvwf := effIds_mem_wf h4 hv
  constructor
  · rw [finalRow_look_none
      (fun hmem => (flatOne_cluster_null_keys h1 hvwf hmem).1 rfl) (by decide)]
    rfl
  · rw [finalRow_look_none
      (fun hmem => (flatOne_cluster_null_keys h1 hvwf hmem).2 rfl) (by decide)]
    rfl

theorem C6_null_cluster_witness :
    ∃ df, process_responses [nullClusterDoc, sampleDoc2] = Except.ok df ∧
      ∀ row ∈ df.rows, assocLook row "address" = some (addrVal nullClusterDoc) →
        (assocLook row "cluster_name").getD JVal.null = JVal.null ∧
        (assocLook row "cluster_category").getD JVal.null = JVal.null :=
  C6_null_cluster [nullClusterDoc, sampleDoc2] (by decide) (by simp)
    nullClusterDoc (by simp) rfl

/-- C10: when one document's exposures list carries two entries with the
same category name from the vocabulary, that category column reads the value
of the last such entry in every row for that document's address. -/
theorem C10_last_write_wins (rs : List Obj) (h : wfBatch rs) (hne : rs ≠ [])
    (d : Obj) (hd : d ∈ rs) (c : String) (hc : c ∈ all_categories) (e : JVal)
    (hdup : 2 ≤ ((esList d).filter (fun x => expCatStr x = some c)).length)
    (hlast : (esList d).reverse.find? (fun x => expCatStr x = some c) = some e) :
    ∃ df, process_responses rs = Except.ok df ∧
      ∀ row ∈ df.rows, assocLook row "address" = some (addrVal d) →
        assocLook row c = some (expValOf e) := by
  obtain ⟨hwf, hnd⟩ := h
  refine ⟨_, process_responses_wf ⟨hwf, hnd⟩ hne, ?_⟩
  intro row hrow haddr
  rcases expectedRows_mem hrow with ⟨d2, hd2, v, hv, rfl⟩
  have haeq : addrVal d2 = addrVal d := by
    have h2 := finalRow_address (hwf d2 hd2) hv
    rw [h2] at haddr
    simpa using haddr
  have hdd : d2 = d := row_doc_unique hwf hnd hd2 hd haeq
  subst hdd
  rw [finalRow_look_cat (hwf d2 hd2) hv hc, catVal_last (hwf d2 hd2) hlast]

theorem C10_last_write_wins_witness :
    ∃ df, process_responses [dupCatDoc] = Except.ok df ∧
      ∀ row ∈ df.rows, assocLook row "address" = some (addrVal dupCatDoc) →
        assocLook row "exchange" =
          some (expValOf (JVal.obj [("category", JVal.str "exchange"),
            ("value", JVal.num 2)])) :=
  C10_last_write_wins [dupCatDoc] (by decide) (by simp) dupCatDoc (by simp)
    "exchange" (by decide) _ (by decide) rfl

/-! ## Flattening an already-flat record -/

theorem flattenGo_flat (l : Obj) (h : ∀ p ∈ l, ∀ d2, p.2 ≠ JVal.obj d2) :
    flattenGo l "" = l := by
  induction l with
  | nil => simp [flattenGo]
  | cons p t ih =>
    rcases p with ⟨k, v⟩
    have ht := ih (fun q hq => h q (List.mem_cons_of_mem _ hq))
    cases v with
    | obj d2 => exact absurd rfl (h (k, JVal.obj d2) (List.mem_cons_self _ _) d2)
    | null => simp [flattenGo, ht]
    | num q => simp [flattenGo, ht]
    | str s => simp [flattenGo, ht]
    | arr a => simp [flattenGo, ht]

theorem dictUpd_fold_append (l : Obj) : ∀ acc : Obj,
    (l.map Prod.fst).Nodup → (∀ k ∈ l.map Prod.fst, k ∉ acc.map Prod.fst) →
    l.foldl (fun a p => dictUpd a p.1 p.2) acc = acc ++ l := by
  induction l with
  | nil =>
    intro acc _ _
    simp
  | cons p t ih =>
    intro acc hnd hdisj
    rw [List.foldl_cons, dictUpd_append_of_not_mem (hdisj p.1 (by simp)) p.2]
    rw [ih (acc ++ [(p.1, p.2)]) (List.nodup_cons.mp (by simpa using hnd)).2 ?hdisj2]
    · simp
    case hdisj2 =>
      intro k hk
      simp only [List.map_append, List.mem_append, List.map_cons, List.map_nil,
        List.mem_cons, List.not_mem_nil, or_false, not_or]
      refine ⟨fun hka => hdisj k (List.mem_cons_of_mem _ hk) hka, ?_⟩
      intro hkp
      exact (List.nodup_cons.mp (by simpa using hnd)).1 (hkp ▸ hk)

theorem dictOf_nodup (l : Obj) (h : (l.map Prod.fst).Nodup) : dictOf l = l := by
  unfold dictOf
  rw [dictUpd_fold_append l [] h (by simp)]
  simp

/-- `flatten_dict` is the identity on a record with no nested dict values
and pairwise-distinct keys. -/
theorem flatten_dict_flat (l : Obj) (hvals : ∀ p ∈ l, ∀ d2, p.2 ≠ JVal.obj d2)
    (hkeys : (l.map Prod.fst).Nodup) : flatten_dict l "" = l := by
  unfold flatten_dict
  rw [flattenGo_flat l hvals, dictOf_nodup l hkeys]

theorem clusterPart_vals {c : JVal} (h : wfCluster c = true) :
    ∀ p ∈ clusterPart c, ∀ d2, p.2 ≠ JVal.obj d2 := by
  rcases wfCluster_cases h with rfl | ⟨n, cat, rfl⟩
  · intro p hp
    simp [clusterPart] at hp
    subst hp
    simp
  · intro p hp
    simp [clusterPart] at hp
    rcases hp with rfl | rfl <;> simp

theorem identPart_vals {v : JVal} (hv : wfIdent v = true ∨ v = JVal.obj []) :
    ∀ p ∈ identPart v, ∀ d2, p.2 ≠ JVal.obj d2 := by
  rcases hv with hvw | rfl
  · obtain ⟨n, c2, ds, rfl⟩ := wfIdent_cases hvw
    intro p hp
    simp [identPart] at hp
    rcases hp with rfl | rfl | rfl <;> simp
  · intro p hp
    simp [identPart] at hp

theorem flatRow_vals {a : String} {rr cl : JVal} {es : List JVal} {v : JVal}
    (h1 : wfRisk rr = true) (h2 : wfCluster cl = true)
    (hv : wfIdent v = true ∨ v = JVal.obj []) :
    ∀ p ∈ ([("address", JVal.str a), ("risk", rr)] ++ clusterPart cl ++
      [("exposures", JVal.arr es)] ++ identPart v), ∀ d2, p.2 ≠ JVal.obj d2 := by
  intro p hp
  rw [List.mem_append, List.mem_append, List.mem_append] at hp
  rcases hp with ((hp | hp) | hp) | hp
  · simp only [List.mem_cons, List.not_mem_nil, or_false] at hp
    rcases hp with rfl | rfl
    · simp
    · rcases wfRisk_cases h1 with ⟨s, rfl⟩ | ⟨q, rfl⟩ <;> simp
  · exact clusterPart_vals h2 p hp
  · simp only [List.mem_cons, List.not_mem_nil, or_false] at hp
    subst hp
    simp
  · exact identPart_vals hv p hp

theorem flatRow_keys_nodup {a : String} {rr cl : JVal} {es : List JVal} {v : JVal}
    (h2 : wfCluster cl = true) (hv : wfIdent v = true ∨ v = JVal.obj []) :
    (([("address", JVal.str a), ("risk", rr)] ++ clusterPart cl ++
      [("exposures", JVal.arr es)] ++ identPart v).map Prod.fst).Nodup := by
  rcases wfCluster_cases h2 with rfl | ⟨cn, cc, rfl⟩ <;> rcases hv with hvw | rfl
  · obtain ⟨n, c2, ds, rfl⟩ := wfIdent_cases hvw
    simp [clusterPart, identPart]
  · simp [clusterPart, identPart]
  · obtain ⟨n, c2, ds, rfl⟩ := wfIdent_cases hvw
    simp [clusterPart, identPart]
  · simp [clusterPart, identPart]

/-- C8: re-flattening an already-flat, single-identification record returns
the record unchanged. -/
theorem C8_flatten_idempotent (d : Obj) (hwfd : wfDoc d = true) (v : JVal)
    (hv : wfIdent v = true) :
    flatten_dict (flatten_dict (dictUpd d "addressIdentifications" v) "") "" =
      flatten_dict (dictUpd d "addressIdentifications" v) "" := by
  obtain ⟨a, rr, cl, es, ids, hdeq, h1, h2, h3, h4⟩ := wfDoc_shape hwfd
  subst hdeq
  rw [show flatten_dict (dictUpd (mkDoc a rr cl es ids) "addressIdentifications" v) "" =
      flatOne (mkDoc a rr cl es ids) v from rfl]
  rw [flatOne_mkDoc h1 h2 (Or.inl hv)]
  exact flatten_dict_flat _ (flatRow_vals h1 h2 (Or.inl hv))
    (flatRow_keys_nodup h2 (Or.inl hv))

theorem C8_flatten_idempotent_witness :
    flatten_dict (flatten_dict (dictUpd sampleDoc2 "addressIdentifications"
      (JVal.obj [("name", JVal.str "Sample ID"), ("category", JVal.str "exchange"),
        ("description", JVal.str "Sample Desc")])) "") "" =
      flatten_dict (dictUpd sampleDoc2 "addressIdentifications"
        (JVal.obj [("name", JVal.str "Sample ID"), ("category", JVal.str "exchange"),
          ("description", JVal.str "Sample Desc")])) "" :=
  C8_flatten_idempotent sampleDoc2 (by decide) _ (by decide)

/-- C7 counterexample: the flatten loop writes `[{}]` through to the
caller's document when `addressIdentifications` is empty, so the input batch
is not left unchanged. -/
theorem C7_counterexample :
    inputAfterProcess [sampleDoc1] ≠ [sampleDoc1] := by
  simp [inputAfterProcess, pyMutateIds, sampleDoc1, mkDoc, assocLook, List.find?,
    truthy, dictUpd]

/-- C7 (amended): documents whose `addressIdentifications` value is truthy
(in particular a non-empty list) are left unchanged by `process_responses`;
only a document with a falsy list is mutated, its `addressIdentifications`
being replaced by `[{}]`. -/
theorem C7_mutation (rs : List Obj)
    (h : ∀ d ∈ rs, ∃ w, assocLook d "addressIdentifications" = some w ∧
      truthy w = true) :
    inputAfterProcess rs = rs := by
  unfold inputAfterProcess
  have hid : ∀ d ∈ rs, pyMutateIds d = d := by
    intro d hd
    rcases h d hd with ⟨w, hw, htr⟩
    unfold pyMutateIds
    rw [hw]
    simp only [htr, if_true]
  calc rs.map pyMutateIds = rs.map id := List.map_congr_left hid
    _ = rs := List.map_id rs

theorem C7_mutation_witness : inputAfterProcess [sampleDoc2] = [sampleDoc2] :=
  C7_mutation [sampleDoc2] (by
    intro d hd
    simp only [List.mem_singleton] at hd
    subst hd
    exact ⟨JVal.arr [JVal.obj [("name", JVal.str "Sample ID"),
      ("category", JVal.str "exchange"), ("description", JVal.str "Sample Desc")]],
      rfl, rfl⟩)

/-! ## Dropping unknown exposure categories (C5) -/

/-- Whether one exposures entry carries a category from the fixed
vocabulary. -/
def knownCat (e : JVal) : Bool :=
  match expCatStr e with
  | some s => all_categories.contains s
  | none => false

/-- The same document with the exposures entries outside the vocabulary
removed. -/
def dropUnknownExp (d : Obj) : Obj :=
  match assocLook d "exposures" with
  | some (JVal.arr es) => dictUpd d "exposures" (JVal.arr (es.filter knownCat))
  | _ => d

theorem dropUnknownExp_mkDoc (a : String) (rr cl : JVal) (es ids : List JVal) :
    dropUnknownExp (mkDoc a rr cl es ids) = mkDoc a rr cl (es.filter knownCat) ids := by
  unfold dropUnknownExp
  rw [show assocLook (mkDoc a rr cl es ids) "exposures" = some (JVal.arr es) from by
    simp [mkDoc, assocLook, List.find?]]
  simp [mkDoc, dictUpd, List.map]

theorem find?_filter_of_imp {α : Type} (l : List α) (p q : α → Bool)
    (h : ∀ x ∈ l, p x = true → q x = true) :
    (l.filter q).find? p = l.find? p := by
  induction l with
  | nil => rfl
  | cons x t ih =>
    have ht := ih (fun y hy => h y (List.mem_cons_of_mem _ hy))
    rw [List.filter_cons]
    by_cases hq : q x = true
    · rw [if_pos hq, List.find?_cons, List.find?_cons]
      cases hp : p x
      · simpa using ht
      · rfl
    · rw [if_neg hq]
      have hp : p x = false := by
        cases hpx : p x
        · rfl
        · exact absurd (h x (List.mem_cons_self _ _) hpx) hq
      rw [List.find?_cons, hp, ht]

theorem catVal_dropUnknown {a : String} {rr cl : JVal} {es ids : List JVal}
    (h3 : ∀ e ∈ es, wfExposure e = true) {c : String} (hc : c ∈ all_categories) :
    catVal (mkDoc a rr cl (es.filter knownCat) ids) c =
      catVal (mkDoc a rr cl es ids) c := by
  unfold catVal
  rw [esList_mkDoc, esList_mkDoc]
  rw [expFold_look (fun e he => h3 e (List.mem_of_mem_filter he)) c]
  rw [expFold_look h3 c]
  congr 1
  rw [← List.filter_reverse]
  congr 1
  apply find?_filter_of_imp
  intro x _ hpx
  simp only [decide_eq_true_eq] at hpx
  unfold knownCat
  rw [hpx]
  simpa using hc

theorem finalRow_dropUnknown {a : String} {rr cl : JVal} {es ids : List JVal}
    {v : JVal} (h1 : wfRisk rr = true) (h2 : wfCluster cl = true)
    (h3 : ∀ e ∈ es, wfExposure e = true)
    (hv : wfIdent v = true ∨ v = JVal.obj []) :
    finalRow (mkDoc a rr cl (es.filter knownCat) ids) v =
      finalRow (mkDoc a rr cl es ids) v := by
  rw [finalRow_eq, finalRow_eq]
  congr 1
  · rw [flatOne_mkDoc h1 h2 hv, flatOne_mkDoc h1 h2 hv]
    rw [List.filter_append, List.filter_append, List.filter_append,
      List.filter_append, List.filter_append, List.filter_append]
    rw [show ([("exposures", JVal.arr (es.filter knownCat))] : Obj).filter
        (fun p => p.1 ≠ "exposures") = [] from by simp [List.filter]]
    rw [show ([("exposures", JVal.arr es)] : Obj).filter
        (fun p => p.1 ≠ "exposures") = [] from by simp [List.filter]]
  · apply List.map_congr_left
    intro c hc
    rw [catVal_dropUnknown h3 hc]

theorem expectedRows_dropUnknown {rs : List Obj}
    (hwf : ∀ d ∈ rs, wfDoc d = true) :
    expectedRows (rs.map dropUnknownExp) = expectedRows rs := by
  unfold expectedRows
  rw [List.flatMap_map]
  rw [List.flatMap_def, List.flatMap_def]
  congr 1
  apply List.map_congr_left
  intro d hd
  obtain ⟨a, rr, cl, es, ids, hdeq, h1, h2, h3, h4⟩ := wfDoc_shape (hwf d hd)
  subst hdeq
  rw [dropUnknownExp_mkDoc]
  rw [effIds_mkDoc, effIds_mkDoc]
  apply List.map_congr_left
  intro v hv
  exact finalRow_dropUnknown h1 h2 h3 (effIds_mem_wf h4 hv)

theorem wfBatch_dropUnknown {rs : List Obj} (h : wfBatch rs) :
    wfBatch (rs.map dropUnknownExp) := by
  obtain ⟨hwf, hnd⟩ := h
  constructor
  · intro d2 hd2
    rcases List.mem_map.mp hd2 with ⟨d, hd, rfl⟩
    obtain ⟨a, rr, cl, es, ids, hdeq, h1, h2, h3, h4⟩ := wfDoc_shape (hwf d hd)
    subst hdeq
    rw [dropUnknownExp_mkDoc]
    show (wfRisk rr && wfCluster cl && (es.filter knownCat).all wfExposure &&
      ids.all wfIdent) = true
    simp only [Bool.and_eq_true, List.all_eq_true]
    exact ⟨⟨⟨h1, h2⟩, fun e he => h3 e (List.mem_of_mem_filter he)⟩, h4⟩
  · rw [List.map_map]
    have haddr : ∀ d ∈ rs, (addrStr ∘ dropUnknownExp) d = addrStr d := by
      intro d hd
      obtain ⟨a, rr, cl, es, ids, hdeq, _, _, _, _⟩ := wfDoc_shape (hwf d hd)
      subst hdeq
      simp only [Function.comp_apply]
      rw [dropUnknownExp_mkDoc, addrStr_mkDoc, addrStr_mkDoc]
    rw [List.map_congr_left haddr]
    exact hnd

/-- C5: exposure categories outside the fixed 32-entry vocabulary are
silently dropped — the run succeeds, the output columns are exactly the
contracted list, and the output equals what the batch without the unknown
entries produces. -/
theorem C5_unknown_dropped (rs : List Obj) (h : wfBatch rs) (hne : rs ≠ []) :
    ∃ df, process_responses rs = Except.ok df ∧ df.cols = column_order ∧
      process_responses (rs.map dropUnknownExp) = Except.ok df := by
  obtain ⟨hwf, hnd⟩ := h
  refine ⟨_, process_responses_wf ⟨hwf, hnd⟩ hne, rfl, ?_⟩
  rw [process_responses_wf (wfBatch_dropUnknown ⟨hwf, hnd⟩) (by
    intro hmap
    exact hne (List.map_eq_nil_iff.mp hmap))]
  rw [expectedRows_dropUnknown hwf]

theorem C5_unknown_dropped_witness :
    ∃ df, process_responses [unknownCatDoc] = Except.ok df ∧
      df.cols = column_order ∧
      process_responses ([unknownCatDoc].map dropUnknownExp) = Except.ok df :=
  C5_unknown_dropped [unknownCatDoc] (by decide) (by simp)
